import Mathlib

/-!
Shallow embedding of seastar's low-resolution cached clocks.

The repository carries several historical variants of the same design:

* `V1` — the first definition set in src/core/lowres_clock.hh (lines 32–149):
  `lowres_clock_impl` stores the raw native tick counts of
  std::chrono::system_clock / std::chrono::steady_clock and converts to the
  public millisecond representation at read time
  (`convert_count_to_time_point`).
* `V2` — the second definition set in src/core/lowres_clock.hh (lines 186–331):
  `update()` converts both readings to millisecond counts at store time
  (`now_count`), and the readers return the stored count directly.
* `VT` — src/core/lowres_clocks.hh: the template
  `clock_impl<BaseClock, GranularityDuration, granularity_count>`, one atomic
  cell per instantiation, storing the raw native count and converting at read
  time; instantiated for the steady and the system clock.
* `VD` — src/core/lowres_system_clock.hh: `lowres_system_clock` derives its
  wall reading from the cached steady clock: it captures a wall base `_base`
  and a steady reference `_ref` once at initialization and computes
  `_base + (lowres_clock::now() - _ref)`.

Modelling conventions:

* Durations are integer tick counts (`Int`), mirroring the int64
  representations (`rep`) of the C++ clocks.  The native period of both
  std::chrono::system_clock and std::chrono::steady_clock is one nanosecond
  (libstdc++ on Linux, seastar's target platform); the public period of the
  cached clocks is one millisecond (std::ratio<1, 1000>).
* std::chrono::duration_cast multiplies by the reduced conversion ratio and
  divides with truncation toward zero (C++ integer division); this is
  `Int.tdiv`.
* The atomic cells `_system_count` / `_steady_count` / `_now` become fields of
  explicit state records; an operation of the C++ code whose body performs
  only atomic loads is embedded as a state-passing function returning the
  state it was given.
* Counts are modelled as unbounded integers: in the reachable range of the
  clocks (nanosecond counts below 2^63) none of the embedded arithmetic
  overflows int64.
-/

namespace SeastarLowres

/-- Model of std::chrono::duration_cast between two integer-representation
durations whose reduced conversion ratio is num/den: multiply the tick count
by num and divide by den truncating toward zero, as C++ integer division
does. -/
def durationCast (num den c : Int) : Int := (c * num).tdiv den

/-- Shared state record for the variants keeping one atomic cell per clock:
`_system_count` and `_steady_count` of `lowres_clock_impl`
(src/core/lowres_clock.hh, both definition sets). -/
structure ClockState where
  system_count : Int
  steady_count : Int
deriving DecidableEq, Repr

/-- Static zero-initialization of the atomic counters before any constructor
runs. -/
def initial_state : ClockState := { system_count := 0, steady_count := 0 }

/-- The granularity (milliseconds) with which the timer re-runs update():
`_granularity = std::chrono::milliseconds(10)`. -/
def granularity_ms : Int := 10

/-- One step of a constructor body, in source order: the synchronous
`update()`, then `_timer.set_callback(...)`, then
`_timer.arm_periodic(_granularity)`. -/
inductive CtorStep where
  | update
  | set_callback
  | arm_periodic (period_ms : Int)
deriving DecidableEq, Repr

namespace V1

/-- Variant 1 `convert_count_to_time_point<TimePoint, BaseClock>`: wraps the
raw native count in `BaseClock::duration` (nanoseconds) and duration_casts it
to the public millisecond `TimePoint::duration`
(src/core/lowres_clock.hh lines 92–97). -/
def convert_count_to_time_point (count : Int) : Int := durationCast 1 1000000 count

/-- Variant 1 `lowres_clock_impl::update()` (src/core/lowres_clock.hh lines
84–90): reads each precise clock once (the readings, native nanosecond counts
since each clock's own epoch, are the two parameters) and stores the raw
counts into `_system_count` and `_steady_count`. -/
def update (_s : ClockState) (system_reading steady_reading : Int) : ClockState :=
  { system_count := system_reading, steady_count := steady_reading }

/-- Variant 1 `lowres_clock_impl::system_now<TimePoint>()`: loads
`_system_count` and converts it at read time. -/
def system_now (s : ClockState) : Int := convert_count_to_time_point s.system_count

/-- Variant 1 `lowres_clock_impl::steady_now<TimePoint>()`: loads
`_steady_count` and converts it at read time. -/
def steady_now (s : ClockState) : Int := convert_count_to_time_point s.steady_count

/-- The constructor body `lowres_clock_impl(private_token)`
(src/core/lowres_clock.hh lines 58–63) in source order. -/
def ctor_steps : List CtorStep :=
  [CtorStep.update, CtorStep.set_callback, CtorStep.arm_periodic granularity_ms]

/-- State after the constructor's synchronous `update()` with the precise
readings taken during construction, starting from the zero-initialized
statics. -/
def construct (system_reading steady_reading : Int) : ClockState :=
  update initial_state system_reading steady_reading

/-- `lowres_clock::now()` of variant 1: `lowres_clock_impl::steady_now`. -/
def lowres_clock_now (s : ClockState) : Int := steady_now s

/-- `lowres_system_clock::now()` of variant 1:
`lowres_clock_impl::system_now`. -/
def lowres_system_clock_now (s : ClockState) : Int := system_now s

end V1

namespace V2

/-- Variant 2 `now_count<Duration, BaseClock>()` (src/core/lowres_clock.hh
lines 254–257): duration_cast the precise clock's reading (a native nanosecond
count since its epoch) to the millisecond cached unit. -/
def now_count (reading : Int) : Int := durationCast 1 1000000 reading

/-- Variant 2 `lowres_clock_impl::update()` (src/core/lowres_clock.hh lines
246–252): reads each precise clock once, converts both readings to millisecond
counts, and stores the converted counts. -/
def update (_s : ClockState) (system_reading steady_reading : Int) : ClockState :=
  { system_count := now_count system_reading, steady_count := now_count steady_reading }

/-- Variant 2 `lowres_clock_impl::system_now<TimePoint>()`: the stored count
already is in the public millisecond unit, so it is returned directly. -/
def system_now (s : ClockState) : Int := s.system_count

/-- Variant 2 `lowres_clock_impl::steady_now<TimePoint>()`. -/
def steady_now (s : ClockState) : Int := s.steady_count

/-- State after variant 2's constructor's synchronous `update()`
(src/core/lowres_clock.hh lines 220–225). -/
def construct (system_reading steady_reading : Int) : ClockState :=
  update initial_state system_reading steady_reading

end V2

namespace VT

/-- The single atomic cell `_now` of one instantiation of
`clock_impl<BaseClock, GranularityDuration, granularity_count>`
(src/core/lowres_clocks.hh line 64). -/
structure ClockImplState where
  now_cell : Int
deriving DecidableEq, Repr

/-- `clock_impl::update()` (src/core/lowres_clocks.hh lines 70–73): reads its
own base clock once and stores the raw native count into `_now`. -/
def update (_s : ClockImplState) (reading : Int) : ClockImplState :=
  { now_cell := reading }

/-- `clock_impl::now<TimePoint>()` (src/core/lowres_clocks.hh lines 40–47):
loads `_now` and duration_casts the native (nanosecond) count to the public
millisecond representation. -/
def now (s : ClockImplState) : Int := durationCast 1 1000000 s.now_cell

/-- The constructor body `clock_impl()` (src/core/lowres_clocks.hh lines
49–54) in source order. -/
def ctor_steps : List CtorStep :=
  [CtorStep.update, CtorStep.set_callback, CtorStep.arm_periodic granularity_ms]

/-- State after `clock_impl()`'s synchronous `update()`, starting from the
zero-initialized static. -/
def construct (reading : Int) : ClockImplState := update { now_cell := 0 } reading

end VT

namespace VD

/-- State visible to src/core/lowres_system_clock.hh's `lowres_system_clock`:
the cached steady count it reads through `lowres_clock::now()` (a millisecond
count), together with the constants captured once at initialization: `_base`
(a system_clock duration, native nanoseconds, relative to the Unix epoch) and
`_ref` (the first captured `lowres_clock` time point, milliseconds). -/
structure State where
  steady_cache : Int
  base : Int
  ref : Int
deriving DecidableEq, Repr

/-- `lowres_system_clock::now()` of src/core/lowres_system_clock.hh lines
58–64: `elapsed = lowres_clock::now().time_since_epoch() - _ref` (milliseconds),
then `_base + duration_cast<system_clock::duration>(elapsed)` (nanoseconds),
duration_cast back to the public millisecond representation. -/
def now (s : State) : Int :=
  durationCast 1 1000000 (s.base + durationCast 1000000 1 (s.steady_cache - s.ref))

end VD

/-- `lowres_system_clock::to_time_t(t)`: duration_cast the millisecond count
since the epoch to whole seconds.  Textually identical in
src/core/lowres_clock.hh (both definition sets) and
src/core/lowres_system_clock.hh. -/
def to_time_t (t : Int) : Int := durationCast 1 1000 t

/-- `lowres_system_clock::from_time_t(t)`: duration_cast the seconds count to
the millisecond duration and wrap it in a time point.  Textually identical in
all three headers defining it. -/
def from_time_t (t : Int) : Int := durationCast 1000 1 t

/-- State-passing embedding of variant 1 `lowres_clock::now()`: its body
performs an atomic load and arithmetic only, so the embedded operation pairs
the unchanged state with the result. -/
def lowres_clock_now_op (s : ClockState) : ClockState × Int := (s, V1.lowres_clock_now s)

/-- State-passing embedding of variant 1 `lowres_system_clock::now()`. -/
def lowres_system_clock_now_op (s : ClockState) : ClockState × Int :=
  (s, V1.lowres_system_clock_now s)

/-- State-passing embedding of `lowres_system_clock::to_time_t`: its body
mentions no shared state at all. -/
def to_time_t_op (s : ClockState) (t : Int) : ClockState × Int := (s, to_time_t t)

/-- State-passing embedding of `lowres_system_clock::from_time_t`: its body
mentions no shared state at all. -/
def from_time_t_op (s : ClockState) (t : Int) : ClockState × Int := (s, from_time_t t)

/-- State-passing embedding of `clock_impl::now` of src/core/lowres_clocks.hh. -/
def clock_impl_now_op (s : VT.ClockImplState) : VT.ClockImplState × Int := (s, VT.now s)

/-! Execution traces over variant 1's shared state: an event is either the
timer callback `update()` (carrying the two precise readings it takes) or a
call to one of the two public readers. -/

/-- An event of an execution of variant 1: a refresh with the precise
readings it observes, or a read through one of the façades. -/
inductive Ev where
  | update (system_reading steady_reading : Int)
  | read_steady
  | read_system
deriving DecidableEq, Repr

/-- Whether an event is a refresh. -/
def Ev.isUpdate : Ev → Bool
  | .update _ _ => true
  | _ => false

/-- Effect of one event on the cached state: only `update()` writes the atomic
cells; the readers perform loads only. -/
def step (s : ClockState) : Ev → ClockState
  | .update sys st => V1.update s sys st
  | .read_steady => s
  | .read_system => s

/-- State after a list of events. -/
def run (s : ClockState) : List Ev → ClockState
  | [] => s
  | e :: es => run (step s e) es

/-- The results of the `lowres_clock::now()` calls of a trace, in order. -/
def steadyReads (s : ClockState) : List Ev → List Int
  | [] => []
  | Ev.read_steady :: es => V1.lowres_clock_now s :: steadyReads s es
  | Ev.read_system :: es => steadyReads s es
  | Ev.update sys st :: es => steadyReads (V1.update s sys st) es

/-- The results of the `lowres_system_clock::now()` calls of a trace, in
order. -/
def systemReads (s : ClockState) : List Ev → List Int
  | [] => []
  | Ev.read_steady :: es => systemReads s es
  | Ev.read_system :: es => V1.lowres_system_clock_now s :: systemReads s es
  | Ev.update sys st :: es => systemReads (V1.update s sys st) es

/-- The precise steady-clock readings of the refreshes of a trace, in order. -/
def updateSteadyReadings : List Ev → List Int
  | [] => []
  | Ev.update _ st :: es => st :: updateSteadyReadings es
  | _ :: es => updateSteadyReadings es

/-! Execution traces over one `clock_impl` instantiation of
src/core/lowres_clocks.hh. -/

/-- An event of an execution of one `clock_impl` instantiation. -/
inductive TEv where
  | update (reading : Int)
  | read
deriving DecidableEq, Repr

/-- Whether a `clock_impl` event is a refresh. -/
def TEv.isUpdate : TEv → Bool
  | .update _ => true
  | .read => false

/-- Effect of one `clock_impl` event on its cell. -/
def stepT (s : VT.ClockImplState) : TEv → VT.ClockImplState
  | .update r => VT.update s r
  | .read => s

/-- State of one `clock_impl` instantiation after a list of events. -/
def runT (s : VT.ClockImplState) : List TEv → VT.ClockImplState
  | [] => s
  | e :: es => runT (stepT s e) es

/-- The results of the `clock_impl::now()` calls of a trace, in order. -/
def readsT (s : VT.ClockImplState) : List TEv → List Int
  | [] => []
  | TEv.read :: es => VT.now s :: readsT s es
  | TEv.update r :: es => readsT (VT.update s r) es

/-! Arithmetic helper lemmas about C++ truncating division (`Int.tdiv`). -/

/-- Negating the dividend negates a truncating remainder. -/
theorem tmod_neg_left (a b : Int) : (-a).tmod b = -(a.tmod b) := by
  rw [Int.tmod_def, Int.tmod_def, Int.neg_tdiv]
  ring

/-- For a positive divisor the truncating remainder lies strictly between
the negated divisor and the divisor. -/
theorem tmod_bounds (a : Int) {b : Int} (hb : 0 < b) : -b < a.tmod b ∧ a.tmod b < b := by
  rcases le_or_lt 0 a with ha | ha
  · exact ⟨lt_of_lt_of_le (neg_neg_of_pos hb) (Int.tmod_nonneg b ha),
      Int.tmod_lt_of_pos a hb⟩
  · have h1 : a.tmod b = -((-a).tmod b) := by
      rw [tmod_neg_left, neg_neg]
    constructor
    · rw [h1]
      exact neg_lt_neg (Int.tmod_lt_of_pos (-a) hb)
    · rw [h1]
      have h2 : 0 ≤ (-a).tmod b := Int.tmod_nonneg b (by omega)
      exact lt_of_le_of_lt (neg_nonpos_of_nonneg h2) hb

/-- Truncating division by a positive divisor is monotone in the dividend. -/
theorem tdiv_le_tdiv_of_le {a b d : Int} (hd : 0 < d) (hab : a ≤ b) :
    a.tdiv d ≤ b.tdiv d := by
  rcases le_or_lt 0 a with ha | ha
  · have hb : 0 ≤ b := le_trans ha hab
    rw [Int.tdiv_eq_ediv ha (le_of_lt hd), Int.tdiv_eq_ediv hb (le_of_lt hd)]
    exact Int.ediv_le_ediv hd hab
  · rcases le_or_lt 0 b with hb | hb
    · have h1 : a.tdiv d = -((-a).tdiv d) := by rw [Int.neg_tdiv, neg_neg]
      have h2 : 0 ≤ (-a).tdiv d := Int.tdiv_nonneg (by omega) (le_of_lt hd)
      have h3 : 0 ≤ b.tdiv d := Int.tdiv_nonneg hb (le_of_lt hd)
      calc a.tdiv d ≤ 0 := by rw [h1]; exact neg_nonpos_of_nonneg h2
        _ ≤ b.tdiv d := h3
    · have hna : (0:Int) ≤ -a := by omega
      have hnb : (0:Int) ≤ -b := by omega
      have h4 : (-b).tdiv d ≤ (-a).tdiv d := by
        rw [Int.tdiv_eq_ediv hnb (le_of_lt hd), Int.tdiv_eq_ediv hna (le_of_lt hd)]
        exact Int.ediv_le_ediv hd (by omega)
      have h5 : a.tdiv d = -((-a).tdiv d) := by rw [Int.neg_tdiv, neg_neg]
      have h6 : b.tdiv d = -((-b).tdiv d) := by rw [Int.neg_tdiv, neg_neg]
      rw [h5, h6]
      exact neg_le_neg h4

/-- `convert_count_to_time_point` is monotone: the read-time nanosecond to
millisecond conversion preserves the order of the cached counts. -/
theorem convert_mono {a b : Int} (hab : a ≤ b) :
    V1.convert_count_to_time_point a ≤ V1.convert_count_to_time_point b := by
  unfold V1.convert_count_to_time_point durationCast
  simp only [Int.mul_one]
  exact tdiv_le_tdiv_of_le (by norm_num) hab

/-- A chain of inequalities survives lowering its head. -/
theorem chain_le_head {a b : Int} {l : List Int} (hab : a ≤ b)
    (h : List.Chain' (· ≤ ·) (b :: l)) : List.Chain' (· ≤ ·) (a :: l) := by
  cases l with
  | nil => simp
  | cons c l =>
    have hc := List.chain'_cons.mp h
    exact List.chain'_cons.mpr ⟨le_trans hab hc.1, hc.2⟩

/-- The cached count converted at read time is at least one millisecond when
the stored reading is at least 10^6 nanoseconds. -/
theorem convert_pos {c : Int} (hc : 1000000 ≤ c) :
    1 ≤ V1.convert_count_to_time_point c := by
  unfold V1.convert_count_to_time_point durationCast
  rw [Int.mul_one]
  calc (1:Int) = (1000000:Int).tdiv 1000000 := (Int.tdiv_self (by norm_num)).symm
    _ ≤ c.tdiv 1000000 := tdiv_le_tdiv_of_le (by norm_num) hc

/-- Trace invariant behind the monotonicity claim: if the current cached
steady count followed by the remaining refresh readings is non-decreasing,
then the current read value followed by all later read results is
non-decreasing. -/
theorem steadyReads_chain_aux (evs : List Ev) (s : ClockState)
    (h : List.Chain' (· ≤ ·) (s.steady_count :: updateSteadyReadings evs)) :
    List.Chain' (· ≤ ·) (V1.lowres_clock_now s :: steadyReads s evs) := by
  induction evs generalizing s with
  | nil => simp [steadyReads]
  | cons e es ih =>
    cases e with
    | read_steady =>
      have h2 := ih s (by simpa [updateSteadyReadings] using h)
      simp only [steadyReads]
      exact List.chain'_cons.mpr ⟨le_refl _, h2⟩
    | read_system =>
      have h2 := ih s (by simpa [updateSteadyReadings] using h)
      simpa [steadyReads] using h2
    | update sys st =>
      simp only [updateSteadyReadings] at h
      have hc := List.chain'_cons.mp h
      have h2 := ih (V1.update s sys st) (by simpa [V1.update] using hc.2)
      simp only [steadyReads]
      exact chain_le_head (convert_mono hc.1) h2

/-- A trace without refreshes leaves the cached state unchanged. -/
theorem run_no_update (evs : List Ev) (s : ClockState)
    (h : ∀ e ∈ evs, e.isUpdate = false) : run s evs = s := by
  induction evs generalizing s with
  | nil => rfl
  | cons e es ih =>
    cases e with
    | update sys st =>
      have hu := h (Ev.update sys st) (List.mem_cons_self _ _)
      simp [Ev.isUpdate] at hu
    | read_steady =>
      exact ih s (fun e he => h e (List.mem_cons_of_mem _ he))
    | read_system =>
      exact ih s (fun e he => h e (List.mem_cons_of_mem _ he))

/-- In a trace without refreshes every steady read returns the value of the
initial cached state. -/
theorem steadyReads_no_update (evs : List Ev) (s : ClockState)
    (h : ∀ e ∈ evs, e.isUpdate = false) :
    ∀ x ∈ steadyReads s evs, x = V1.lowres_clock_now s := by
  induction evs generalizing s with
  | nil => intro x hx; simp [steadyReads] at hx
  | cons e es ih =>
    cases e with
    | update sys st =>
      have hu := h (Ev.update sys st) (List.mem_cons_self _ _)
      simp [Ev.isUpdate] at hu
    | read_steady =>
      intro x hx
      simp only [steadyReads, List.mem_cons] at hx
      rcases hx with hx | hx
      · exact hx
      · exact ih s (fun e he => h e (List.mem_cons_of_mem _ he)) x hx
    | read_system =>
      intro x hx
      simp only [steadyReads] at hx
      exact ih s (fun e he => h e (List.mem_cons_of_mem _ he)) x hx

/-- In a trace without refreshes every wall read returns the value of the
initial cached state. -/
theorem systemReads_no_update (evs : List Ev) (s : ClockState)
    (h : ∀ e ∈ evs, e.isUpdate = false) :
    ∀ x ∈ systemReads s evs, x = V1.lowres_system_clock_now s := by
  induction evs generalizing s with
  | nil => intro x hx; simp [systemReads] at hx
  | cons e es ih =>
    cases e with
    | update sys st =>
      have hu := h (Ev.update sys st) (List.mem_cons_self _ _)
      simp [Ev.isUpdate] at hu
    | read_steady =>
      intro x hx
      simp only [systemReads] at hx
      exact ih s (fun e he => h e (List.mem_cons_of_mem _ he)) x hx
    | read_system =>
      intro x hx
      simp only [systemReads, List.mem_cons] at hx
      rcases hx with hx | hx
      · exact hx
      · exact ih s (fun e he => h e (List.mem_cons_of_mem _ he)) x hx

/-- A `clock_impl` trace without refreshes leaves the cell unchanged. -/
theorem runT_no_update (evs : List TEv) (s : VT.ClockImplState)
    (h : ∀ e ∈ evs, e.isUpdate = false) : runT s evs = s := by
  induction evs generalizing s with
  | nil => rfl
  | cons e es ih =>
    cases e with
    | update r =>
      have hu := h (TEv.update r) (List.mem_cons_self _ _)
      simp [TEv.isUpdate] at hu
    | read =>
      exact ih s (fun e he => h e (List.mem_cons_of_mem _ he))

/-- In a `clock_impl` trace without refreshes every read returns the value of
the initial cell. -/
theorem readsT_no_update (evs : List TEv) (s : VT.ClockImplState)
    (h : ∀ e ∈ evs, e.isUpdate = false) : ∀ x ∈ readsT s evs, x = VT.now s := by
  induction evs generalizing s with
  | nil => intro x hx; simp [readsT] at hx
  | cons e es ih =>
    cases e with
    | update r =>
      have hu := h (TEv.update r) (List.mem_cons_self _ _)
      simp [TEv.isUpdate] at hu
    | read =>
      intro x hx
      simp only [readsT, List.mem_cons] at hx
      rcases hx with hx | hx
      · exact hx
      · exact ih s (fun e he => h e (List.mem_cons_of_mem _ he)) x hx

/-! Claim theorems. -/

/-- Claim C1, counterexample: in the src/core/lowres_system_clock.hh variant
the claim fails.  Two states that agree on everything the wall clock ever read
(the base captured at initialization is 0 nanoseconds in both, and no other
system_clock reading exists) but differ in the cached steady count (1000 ms
versus 2000 ms) give different `lowres_system_clock::now()` results, and the
returned value 1000 ms is not the millisecond image of the only system_clock
reading ever taken (0 ns): the wall value is synthesized from the steady
clock's reading, not derived from a system_clock reading at a past refresh. -/
theorem wall_now_synthesized_counterexample :
    VD.now { steady_cache := 1000, base := 0, ref := 0 } ≠
        VD.now { steady_cache := 2000, base := 0, ref := 0 } ∧
    VD.now { steady_cache := 1000, base := 0, ref := 0 } ≠ durationCast 1 1000000 0 := by
  constructor <;> decide

/-- Claim C1, amended: in the variants whose wall cache is written directly
from the precise clock — both definition sets of src/core/lowres_clock.hh and
the `clock_impl` template of src/core/lowres_clocks.hh — every value returned
by `now()` is the millisecond image of the reading the corresponding precise
clock actually produced at the latest refresh, never a value interpolated or
synthesized from another clock's reading; the
src/core/lowres_system_clock.hh variant is excluded, since it synthesizes
wall time from the cached steady reading plus a base captured once at
initialization. -/
theorem cached_value_from_precise_reading (s1 s2 : ClockState) (t : VT.ClockImplState)
    (system_reading steady_reading r : Int) :
    V1.lowres_system_clock_now (V1.update s1 system_reading steady_reading) =
        durationCast 1 1000000 system_reading ∧
    V1.lowres_clock_now (V1.update s1 system_reading steady_reading) =
        durationCast 1 1000000 steady_reading ∧
    V2.system_now (V2.update s2 system_reading steady_reading) =
        durationCast 1 1000000 system_reading ∧
    V2.steady_now (V2.update s2 system_reading steady_reading) =
        durationCast 1 1000000 steady_reading ∧
    VT.now (VT.update t r) = durationCast 1 1000000 r :=
  ⟨rfl, rfl, rfl, rfl, rfl⟩

/-- Claim C2, counterexample: the claim fails on the first definition set of
src/core/lowres_clock.hh and on src/core/lowres_clocks.hh.  At the concrete
precise readings 123456789 ns (system) and 987654321 ns (steady), variant 1's
`update()` stores the raw counts 123456789 and 987654321, not the millisecond
counts 123 and 987, and `clock_impl::update` likewise stores the raw count of
its single clock. -/
theorem update_stores_raw_counterexample :
    (V1.update initial_state 123456789 987654321).system_count ≠
        durationCast 1 1000000 123456789 ∧
    (V1.update initial_state 123456789 987654321).steady_count ≠
        durationCast 1 1000000 987654321 ∧
    (VT.update { now_cell := 0 } 123456789).now_cell ≠
        durationCast 1 1000000 123456789 := by
  refine ⟨?_, ?_, ?_⟩ <;> decide

/-- Claim C2, amended: every invocation of `update()` reads its precise
clock(s) once and stores a count obtained from those readings: the second
definition set of src/core/lowres_clock.hh converts both readings to
millisecond counts before storing them into the two atomic cells; the first
definition set stores both raw native counts unconverted (read-time conversion
then yields the millisecond value); and `clock_impl::update` of
src/core/lowres_clocks.hh reads and stores only its own base clock's raw
count. -/
theorem update_stores_counts (s1 s2 : ClockState) (t : VT.ClockImplState)
    (system_reading steady_reading r : Int) :
    (V2.update s2 system_reading steady_reading).system_count =
        durationCast 1 1000000 system_reading ∧
    (V2.update s2 system_reading steady_reading).steady_count =
        durationCast 1 1000000 steady_reading ∧
    (V1.update s1 system_reading steady_reading).system_count = system_reading ∧
    (V1.update s1 system_reading steady_reading).steady_count = steady_reading ∧
    V1.system_now (V1.update s1 system_reading steady_reading) =
        durationCast 1 1000000 system_reading ∧
    V1.steady_now (V1.update s1 system_reading steady_reading) =
        durationCast 1 1000000 steady_reading ∧
    (VT.update t r).now_cell = r :=
  ⟨rfl, rfl, rfl, rfl, rfl, rfl, rfl⟩

/-- Claim C3: both constructors (`lowres_clock_impl(private_token)` of
src/core/lowres_clock.hh and `clock_impl()` of src/core/lowres_clocks.hh) run
the synchronous `update()` strictly before arming the periodic timer; after
construction each cache holds exactly the precise reading taken during
construction, so the first `now()` returns its millisecond image, and — when
the construction-time readings are at least one millisecond since their
epochs, as any running clock's are — that first value is nonzero, never a
zero, sentinel, or uninitialized value. -/
theorem construct_initializes (system_reading steady_reading r : Int)
    (hsys : 1000000 ≤ system_reading) (hst : 1000000 ≤ steady_reading)
    (hr : 1000000 ≤ r) :
    V1.ctor_steps.indexOf CtorStep.update <
        V1.ctor_steps.indexOf (CtorStep.arm_periodic granularity_ms) ∧
    (V1.construct system_reading steady_reading).system_count = system_reading ∧
    (V1.construct system_reading steady_reading).steady_count = steady_reading ∧
    V1.lowres_clock_now (V1.construct system_reading steady_reading) =
        V1.convert_count_to_time_point steady_reading ∧
    V1.lowres_system_clock_now (V1.construct system_reading steady_reading) =
        V1.convert_count_to_time_point system_reading ∧
    V1.lowres_clock_now (V1.construct system_reading steady_reading) ≠ 0 ∧
    V1.lowres_system_clock_now (V1.construct system_reading steady_reading) ≠ 0 ∧
    VT.ctor_steps.indexOf CtorStep.update <
        VT.ctor_steps.indexOf (CtorStep.arm_periodic granularity_ms) ∧
    (VT.construct r).now_cell = r ∧
    VT.now (VT.construct r) ≠ 0 := by
  refine ⟨by decide, rfl, rfl, rfl, rfl, ?_, ?_, by decide, rfl, ?_⟩
  · exact ne_of_gt (lt_of_lt_of_le zero_lt_one (convert_pos hst))
  · exact ne_of_gt (lt_of_lt_of_le zero_lt_one (convert_pos hsys))
  · exact ne_of_gt (lt_of_lt_of_le zero_lt_one (convert_pos hr))

/-- Witness for claim C3 at the concrete construction-time readings
2000000 ns, 3000000 ns and 4000000 ns. -/
theorem construct_initializes_witness :
    V1.ctor_steps.indexOf CtorStep.update <
        V1.ctor_steps.indexOf (CtorStep.arm_periodic granularity_ms) ∧
    (V1.construct 2000000 3000000).system_count = 2000000 ∧
    (V1.construct 2000000 3000000).steady_count = 3000000 ∧
    V1.lowres_clock_now (V1.construct 2000000 3000000) =
        V1.convert_count_to_time_point 3000000 ∧
    V1.lowres_system_clock_now (V1.construct 2000000 3000000) =
        V1.convert_count_to_time_point 2000000 ∧
    V1.lowres_clock_now (V1.construct 2000000 3000000) ≠ 0 ∧
    V1.lowres_system_clock_now (V1.construct 2000000 3000000) ≠ 0 ∧
    VT.ctor_steps.indexOf CtorStep.update <
        VT.ctor_steps.indexOf (CtorStep.arm_periodic granularity_ms) ∧
    (VT.construct 4000000).now_cell = 4000000 ∧
    VT.now (VT.construct 4000000) ≠ 0 :=
  construct_initializes 2000000 3000000 4000000 (by norm_num) (by norm_num) (by norm_num)

/-- Claim C4: along any trace that starts from the constructed state and
interleaves `lowres_clock::now()` calls arbitrarily with refreshes whose
precise steady readings are non-decreasing (the constructor-time reading
included), the sequence of values returned by `lowres_clock::now()` is
non-decreasing. -/
theorem steady_now_monotone (system_reading0 steady_reading0 : Int) (evs : List Ev)
    (h : List.Chain' (· ≤ ·) (steady_reading0 :: updateSteadyReadings evs)) :
    List.Chain' (· ≤ ·)
      (steadyReads (V1.construct system_reading0 steady_reading0) evs) := by
  have h2 := steadyReads_chain_aux evs (V1.construct system_reading0 steady_reading0)
    (by simpa [V1.construct, V1.update] using h)
  exact h2.tail

/-- Witness for claim C4: a concrete trace with construction-time steady
reading 7000000 ns, one read, a refresh advancing the steady reading to
20000000 ns, and another read. -/
theorem steady_now_monotone_witness :
    List.Chain' (· ≤ ·)
      (steadyReads (V1.construct 5000000 7000000)
        [Ev.read_steady, Ev.update 10000000 20000000, Ev.read_steady]) :=
  steady_now_monotone 5000000 7000000
    [Ev.read_steady, Ev.update 10000000 20000000, Ev.read_steady]
    (by simp only [updateSteadyReadings]; exact List.chain'_pair.mpr (by norm_num))

/-- Claim C5: along any trace without an intervening `update()`, the cached
state is unchanged and every `now()` call — steady and wall in the
src/core/lowres_clock.hh variant, and `clock_impl::now()` of
src/core/lowres_clocks.hh — returns the same value, namely the pure function
of the cached state it started from; hence any two such calls return identical
time points. -/
theorem now_constant_between_refreshes (s : ClockState) (evs : List Ev)
    (t : VT.ClockImplState) (tevs : List TEv)
    (h : ∀ e ∈ evs, e.isUpdate = false) (ht : ∀ e ∈ tevs, e.isUpdate = false) :
    run s evs = s ∧
    (∀ x ∈ steadyReads s evs, x = V1.lowres_clock_now s) ∧
    (∀ x ∈ systemReads s evs, x = V1.lowres_system_clock_now s) ∧
    runT t tevs = t ∧
    (∀ x ∈ readsT t tevs, x = VT.now t) :=
  ⟨run_no_update evs s h, steadyReads_no_update evs s h, systemReads_no_update evs s h,
    runT_no_update tevs t ht, readsT_no_update tevs t ht⟩

/-- Witness for claim C5: a concrete refresh-free trace of two steady reads
and one wall read over the state holding counts 1234567 and 7654321, and a
refresh-free `clock_impl` trace of two reads over the cell 424242. -/
theorem now_constant_between_refreshes_witness :
    run { system_count := 1234567, steady_count := 7654321 }
        [Ev.read_steady, Ev.read_system, Ev.read_steady] =
      { system_count := 1234567, steady_count := 7654321 } ∧
    (∀ x ∈ steadyReads { system_count := 1234567, steady_count := 7654321 }
        [Ev.read_steady, Ev.read_system, Ev.read_steady],
      x = V1.lowres_clock_now { system_count := 1234567, steady_count := 7654321 }) ∧
    (∀ x ∈ systemReads { system_count := 1234567, steady_count := 7654321 }
        [Ev.read_steady, Ev.read_system, Ev.read_steady],
      x = V1.lowres_system_clock_now { system_count := 1234567, steady_count := 7654321 }) ∧
    runT { now_cell := 424242 } [TEv.read, TEv.read] = { now_cell := 424242 } ∧
    (∀ x ∈ readsT { now_cell := 424242 } [TEv.read, TEv.read],
      x = VT.now { now_cell := 424242 }) :=
  now_constant_between_refreshes { system_count := 1234567, steady_count := 7654321 }
    [Ev.read_steady, Ev.read_system, Ev.read_steady]
    { now_cell := 424242 } [TEv.read, TEv.read] (by decide) (by decide)

/-- Claim C6: for every time point t (a millisecond count since the epoch),
`from_time_t (to_time_t t)` is within one second of t: the difference lies
strictly between -1000 and 1000 milliseconds, because the composition
truncates away the sub-second part of t. -/
theorem from_to_time_t_within_second (t : Int) :
    -1000 < from_time_t (to_time_t t) - t ∧ from_time_t (to_time_t t) - t < 1000 := by
  have hb := tmod_bounds t (show (0:Int) < 1000 by norm_num)
  have hq := Int.tdiv_add_tmod' t 1000
  unfold from_time_t to_time_t durationCast
  rw [Int.mul_one, Int.tdiv_one]
  constructor <;> omega

/-- Claim C7: given the same precise steady-clock reading, the three
historical variants of `lowres_clock::now()` — variant 1 of
src/core/lowres_clock.hh (raw count stored, converted at read time), variant 2
(millisecond count stored), and the template `clock_impl` of
src/core/lowres_clocks.hh — return equal time points: all are refinements of
the same public contract. -/
theorem variants_agree (s1 s2 : ClockState) (t : VT.ClockImplState)
    (system_reading steady_reading : Int) :
    V1.lowres_clock_now (V1.update s1 system_reading steady_reading) =
        V2.steady_now (V2.update s2 system_reading steady_reading) ∧
    V2.steady_now (V2.update s2 system_reading steady_reading) =
        VT.now (VT.update t steady_reading) :=
  ⟨rfl, rfl⟩

/-- Claim C8: `from_time_t` is state-independent: two runs over arbitrarily
different cached clock states produce identical time points for the same
seconds value, because the conversion never reads the shared cached values. -/
theorem from_time_t_state_independent (s1 s2 : ClockState) (t : Int) :
    (from_time_t_op s1 t).2 = (from_time_t_op s2 t).2 :=
  rfl

/-- Claim C9: none of the façade operations — `lowres_clock::now()`,
`lowres_system_clock::now()`, `to_time_t`, `from_time_t`, and
`clock_impl::now()` — modifies the cached atomic values: their state-passing
embeddings return the cached state unchanged; only `update()` writes the
cells. -/
theorem facades_frame (s : ClockState) (t u : Int) (ts : VT.ClockImplState) :
    (lowres_clock_now_op s).1 = s ∧
    (lowres_system_clock_now_op s).1 = s ∧
    (to_time_t_op s t).1 = s ∧
    (from_time_t_op s u).1 = s ∧
    (clock_impl_now_op ts).1 = ts :=
  ⟨rfl, rfl, rfl, rfl, rfl⟩

/-- Claim C10: for every seconds value s, `to_time_t (from_time_t s)` is
exactly s: seconds to time point and back is a lossless round trip. -/
theorem to_from_time_t_roundtrip (s : Int) : to_time_t (from_time_t s) = s := by
  unfold from_time_t to_time_t durationCast
  rw [Int.tdiv_one, Int.mul_one]
  exact Int.mul_tdiv_cancel s (by norm_num)

end SeastarLowres
